import Mathlib

/-!
Verification of the rust-mpd response-structuring core.

Shallow embedding of the wire-decoding and response-structuring layer of the
`rust-mpd` client library (`src/proto.rs`, `src/idle.rs`, `src/list.rs`),
together with proofs of the specified properties.

Modelling conventions:
* A Rust line source (`Iterator<Item = io::Result<String>>`) is a
  `List (Except IoError String)`; pulling `next()` takes the head, the empty
  list is an exhausted source.
* The pair stream produced by `Pairs` is likewise consumed as a
  `List (Except Error (String × String))` by the grouping iterators: it is the
  sequence of items `Pairs::next` yields before its first `None` (the `Maps`
  iterators never call `next` again after receiving `None`, thanks to their
  `done` flag).
* Rust `Result<T, Error>` is `Except Error T`; `Option` is `Option`.
* Strings are Lean `String`s; `str::replace` on single-character patterns is
  modelled character-wise.
-/

/-- Decidable equality for `Except`, needed to `decide` concrete runs. -/
instance {ε α : Type} [DecidableEq ε] [DecidableEq α] : DecidableEq (Except ε α) := fun x y =>
  match x, y with
  | .ok a, .ok b =>
    if h : a = b then .isTrue (by rw [h]) else .isFalse (by intro hh; cases hh; exact h rfl)
  | .error a, .error b =>
    if h : a = b then .isTrue (by rw [h]) else .isFalse (by intro hh; cases hh; exact h rfl)
  | .ok _, .error _ => .isFalse (by intro hh; cases hh)
  | .error _, .ok _ => .isFalse (by intro hh; cases hh)

namespace Mpd

/-- I/O errors are opaque to this layer; we carry a message. -/
abbrev IoError := String

/-- Structured server-side error carried by an `ACK` terminal reply
(code, command-list index, failing command name, human message). -/
structure ServerError where
  code : Nat
  index : Nat
  command : String
  message : String
deriving DecidableEq, Repr

/-- Decode failures (`error.rs` is not under `src/`; the shape is modelled
from the spec: malformed pair line, malformed ACK payload, unknown
enumerated identifier). -/
inductive ParseError where
  | BadPair : ParseError
  | BadAck (line : String) : ParseError
  | BadValue (s : String) : ParseError
deriving DecidableEq, Repr

/-- The error taxonomy of the crate, restricted to the variants this layer
produces: transport, decode and server errors. -/
inductive Error where
  | Io (e : IoError) : Error
  | Parse (e : ParseError) : Error
  | Server (e : ServerError) : Error
deriving DecidableEq, Repr

/-- One decoded protocol line (`reply.rs`): a key/value pair, the terminal
success marker `OK`, or the terminal error marker `ACK ...`. -/
inductive Reply where
  | pair (a b : String) : Reply
  | ok : Reply
  | ack (e : ServerError) : Reply
deriving DecidableEq, Repr

/-- A key/value pair as yielded by the pair stream. -/
abbrev SPair := String × String

/-- Modelled from the spec: split a field line at the first `": "`
occurrence; the value is the remainder of the line verbatim
(the Reply Decoder's source file `reply.rs` is not under `src/`). -/
def splitPairChars : List Char → Option (List Char × List Char)
  | [] => none
  | ':' :: ' ' :: rest => some ([], rest)
  | c :: rest =>
    match splitPairChars rest with
    | some (k, v) => some (c :: k, v)
    | none => none

/-- Split a character list at the first occurrence of `c` (which is
dropped); `none` when `c` does not occur. -/
def breakAtChar (c : Char) : List Char → Option (List Char × List Char)
  | [] => none
  | x :: rest =>
    if x = c then some ([], rest)
    else
      match breakAtChar c rest with
      | some (a, b) => some (x :: a, b)
      | none => none

/-- Read a nonempty all-digit character list as a decimal number. -/
def digitsToNat : List Char → Option Nat
  | [] => none
  | cs => go 0 cs
where
  go : Nat → List Char → Option Nat
    | n, [] => some n
    | n, c :: rest => if c.isDigit then go (n * 10 + (c.toNat - 48)) rest else none

/-- Modelled from the spec: parse the payload of an `ACK` line,
`[<code>@<index>] {command} message` with the command name optional
(`reply.rs` is not under `src/`). Returns `none` for a malformed payload. -/
def parseAck : List Char → Option ServerError
  | '[' :: rest =>
    match breakAtChar '@' rest with
    | some (cstr, rest2) =>
      match breakAtChar ']' rest2 with
      | some (istr, rest3) =>
        match digitsToNat cstr, digitsToNat istr with
        | some code, some idx =>
          match rest3 with
          | ' ' :: '{' :: rest4 =>
            match breakAtChar '}' rest4 with
            | some (cmd, ' ' :: msg) => some ⟨code, idx, String.mk cmd, String.mk msg⟩
            | some (cmd, []) => some ⟨code, idx, String.mk cmd, ""⟩
            | _ => none
          | ' ' :: msg => some ⟨code, idx, "", String.mk msg⟩
          | _ => none
        | _, _ => none
      | none => none
    | none => none
  | _ => none

/-- Modelled from the spec: the Reply Decoder (`reply.rs` is not under
`src/`). The exact line `OK` is the success marker; a line beginning with
`ACK` carries a structured server error (malformed payload is a parse
error); any other line must contain a `": "` separator and decodes to a
verbatim key/value pair. -/
def parseReply (s : String) : Except ParseError Reply :=
  if s = "OK" then .ok .ok
  else
    match s.data with
    | 'A' :: 'C' :: 'K' :: rest =>
      match parseAck (rest.dropWhile (· = ' ')) with
      | some e => .ok (.ack e)
      | none => .error (.BadAck s)
    | cs =>
      match splitPairChars cs with
      | some (k, v) => .ok (.pair (String.mk k) (String.mk v))
      | none => .error .BadPair

/-- Embeds `Pairs::next` (src/proto.rs:19-33): pull one line from the underlying
source, decode it with the reply parser, and turn the decoded reply into an
iterator item. The iterator holds no state besides the source itself, so the
state is just the remaining line list. The reply parser is a parameter,
standing for `str::parse::<Reply>` whose source is not under `src/`. -/
def Pairs.next (parse : String → Except ParseError Reply) :
    List (Except IoError String) →
    Option (Except Error SPair) × List (Except IoError String)
  | [] => (none, [])
  | line :: rest =>
    let reply : Except Error Reply :=
      match line with
      | .error e => .error (.Io e)
      | .ok s =>
        match parse s with
        | .ok r => .ok r
        | .error e => .error (.Parse e)
    match reply with
    | .ok (.pair a b) => (some (.ok (a, b)), rest)
    | .ok .ok => (none, rest)
    | .ok (.ack e) => (some (.error (.Server e)), rest)
    | .error e => (some (.error e), rest)

/-- The sequence of items `Pairs` yields before its first `None`, as a list:
this is exactly the view of the pair stream a `done`-flagged consumer
(the grouping iterators) can observe. -/
def pairsList (parse : String → Except ParseError Reply) :
    List (Except IoError String) → List (Except Error SPair)
  | [] => []
  | .error e :: rest => .error (.Io e) :: pairsList parse rest
  | .ok s :: rest =>
    match parse s with
    | .ok (.pair a b) => .ok (a, b) :: pairsList parse rest
    | .ok .ok => []
    | .ok (.ack e) => .error (.Server e) :: pairsList parse rest
    | .error e => .error (.Parse e) :: pairsList parse rest

/-- State of the single-sentinel grouping iterator `Maps`
(src/proto.rs:35-41): the not-yet-consumed pair stream, the configured
sentinel key, the pending sentinel value carried to the next group, the
exhaustion flag and the one-shot first-group flag. -/
structure Maps where
  pairs : List (Except Error SPair)
  sep : String
  value : Option String
  done : Bool
  first : Bool
deriving DecidableEq, Repr

/-- Outcome of the inner `loop` of `Maps::next`: an underlying error (with
the remaining stream), a break on a sentinel pair (accumulated members,
sentinel value, remaining stream), or end of the pair stream. -/
inductive LoopOut where
  | err (e : Error) (rest : List (Except Error SPair)) : LoopOut
  | sentinel (map : List SPair) (b : String) (rest : List (Except Error SPair)) : LoopOut
  | eos (map : List SPair) : LoopOut
deriving DecidableEq, Repr

/-- The inner `loop` of `Maps::next` (src/proto.rs:58-78): pull pairs,
pushing non-sentinel pairs onto `map`, until a sentinel pair, an error or
the end of the stream. -/
def mapsLoop (sep : String) (map : List SPair) :
    List (Except Error SPair) → LoopOut
  | [] => .eos map
  | .ok (a, b) :: rest =>
    if a = sep then .sentinel map b rest else mapsLoop sep (map ++ [(a, b)]) rest
  | .error e :: rest => .err e rest

/-- The seed of a new group in `Maps::next` (src/proto.rs:54-56): the
pending sentinel value, re-keyed with the configured sentinel, if any. -/
def pending (sep : String) : Option String → List SPair
  | some b => [(sep, b)]
  | none => []

/-- The body of `Maps::next` as it behaves once the one-shot `first` flag
is down: `done` yields `None`; otherwise seed the group from the pending
value, run the loop, and return the error / flush-and-finish / close-on-
sentinel outcome, with an empty closed map yielding `None`. -/
def Maps.nextPlain (st : Maps) : Option (Except Error (List SPair)) × Maps :=
  if st.done then (none, st)
  else
    match mapsLoop st.sep (pending st.sep st.value) st.pairs with
    | .err e rest => (some (.error e), { st with pairs := rest, value := none })
    | .eos map =>
      (if map.isEmpty then none else some (.ok map),
       { st with pairs := [], value := none, done := true })
    | .sentinel map b rest =>
      (if map.isEmpty then none else some (.ok map),
       { st with pairs := rest, value := some b })

/-- Embeds `Maps::next` (src/proto.rs:43-86). Like `Maps.nextPlain`, except that
the first sentinel ever seen discards the accumulated leading map and
retries (`return self.next()` after clearing `first`). The Rust re-entry
happens exactly once, with `first` already false, so it is modelled by the
total `Maps.nextPlain`; `Maps.next_eq_nextPlain` below shows the two
functions agree on every `first = false` state, which makes this a faithful
rendering of the self-call. -/
def Maps.next (st : Maps) : Option (Except Error (List SPair)) × Maps :=
  if st.done then (none, st)
  else
    match mapsLoop st.sep (pending st.sep st.value) st.pairs with
    | .err e rest => (some (.error e), { st with pairs := rest, value := none })
    | .eos map =>
      (if map.isEmpty then none else some (.ok map),
       { st with pairs := [], value := none, done := true })
    | .sentinel map b rest =>
      if st.first then
        Maps.nextPlain { st with pairs := rest, value := some b, first := false }
      else
        (if map.isEmpty then none else some (.ok map),
         { st with pairs := rest, value := some b })

/-- Embeds `Pairs::split` (src/proto.rs:149-151): a fresh `Maps` over a pair
stream, with no pending value, not done, and the first-group flag set. -/
def Pairs.split (sep : String) (ps : List (Except Error SPair)) : Maps :=
  { pairs := ps, sep := sep, value := none, done := false, first := true }

/-- State of the multi-sentinel grouping iterator `MultiSepMaps`
(src/proto.rs:90-97); compared to `Maps` it keeps a set of sentinel keys
and additionally remembers the key of the sentinel that closed the last
group (`last_sep`). -/
structure MultiSepMaps where
  pairs : List (Except Error SPair)
  seps : List String
  last_sep : Option String
  value : Option String
  done : Bool
  first : Bool
deriving DecidableEq, Repr

/-- Outcome of the inner `loop` of `MultiSepMaps::next`; a sentinel break
carries the sentinel's own key as well as its value. -/
inductive MultiLoopOut where
  | err (e : Error) (rest : List (Except Error SPair)) : MultiLoopOut
  | sentinel (map : List SPair) (a b : String) (rest : List (Except Error SPair)) : MultiLoopOut
  | eos (map : List SPair) : MultiLoopOut
deriving DecidableEq, Repr

/-- The inner `loop` of `MultiSepMaps::next` (src/proto.rs:114-135): like
`mapsLoop` but the sentinel test is membership in the key set. -/
def multiLoop (seps : List String) (map : List SPair) :
    List (Except Error SPair) → MultiLoopOut
  | [] => .eos map
  | .ok (a, b) :: rest =>
    if a ∈ seps then .sentinel map a b rest else multiLoop seps (map ++ [(a, b)]) rest
  | .error e :: rest => .err e rest

/-- The seed of a new group in `MultiSepMaps::next` (src/proto.rs:110-112):
the pending sentinel value re-keyed with the remembered closing sentinel's
own key, when both are present. -/
def pendingMulti : Option String → Option String → List SPair
  | some v, some k => [(k, v)]
  | _, _ => []

/-- The body of `MultiSepMaps::next` once the one-shot `first` flag is
down; see `Maps.nextPlain`. -/
def MultiSepMaps.nextPlain (st : MultiSepMaps) :
    Option (Except Error (List SPair)) × MultiSepMaps :=
  if st.done then (none, st)
  else
    match multiLoop st.seps (pendingMulti st.value st.last_sep) st.pairs with
    | .err e rest => (some (.error e), { st with pairs := rest, value := none, last_sep := none })
    | .eos map =>
      (if map.isEmpty then none else some (.ok map),
       { st with pairs := [], value := none, last_sep := none, done := true })
    | .sentinel map a b rest =>
      (if map.isEmpty then none else some (.ok map),
       { st with pairs := rest, value := some b, last_sep := some a })

/-- Embeds `MultiSepMaps::next` (src/proto.rs:99-143): as `Maps::next`, but the
group is seeded with `(last_sep, value)` — the closing sentinel's own key
is re-attached — and a sentinel break stashes both the key and the value.
The one-shot `return self.next()` re-entry is modelled by
`MultiSepMaps.nextPlain`, justified by `MultiSepMaps.multi_next_eq_nextPlain`. -/
def MultiSepMaps.next (st : MultiSepMaps) :
    Option (Except Error (List SPair)) × MultiSepMaps :=
  if st.done then (none, st)
  else
    match multiLoop st.seps (pendingMulti st.value st.last_sep) st.pairs with
    | .err e rest => (some (.error e), { st with pairs := rest, value := none, last_sep := none })
    | .eos map =>
      (if map.isEmpty then none else some (.ok map),
       { st with pairs := [], value := none, last_sep := none, done := true })
    | .sentinel map a b rest =>
      if st.first then
        MultiSepMaps.nextPlain { st with pairs := rest, value := some b, last_sep := some a, first := false }
      else
        (if map.isEmpty then none else some (.ok map),
         { st with pairs := rest, value := some b, last_sep := some a })

/-- Embeds `Pairs::split_multisep` (src/proto.rs:153-159): a fresh `MultiSepMaps`
over a pair stream. -/
def Pairs.split_multisep (seps : List String) (ps : List (Except Error SPair)) : MultiSepMaps :=
  { pairs := ps, seps := seps, last_sep := none, value := none, done := false, first := true }

/-- Termination measure for driving `Maps`: remaining pairs plus one while
not yet done. -/
def Maps.measure (st : Maps) : Nat :=
  st.pairs.length + (if st.done then 0 else 1)

/-- Termination measure for driving `MultiSepMaps`. -/
def MultiSepMaps.measure (st : MultiSepMaps) : Nat :=
  st.pairs.length + (if st.done then 0 else 1)

theorem mapsLoop_err_length (sep : String) :
    ∀ (ps : List (Except Error SPair)) (map : List SPair) {e : Error}
      {rest : List (Except Error SPair)},
      mapsLoop sep map ps = .err e rest → rest.length < ps.length := by
  intro ps
  induction ps with
  | nil => intro map e rest h; simp [mapsLoop] at h
  | cons x xs ih =>
    intro map e rest h
    cases x with
    | error e2 =>
      simp [mapsLoop] at h
      simp [h.2.symm]
    | ok p =>
      obtain ⟨a, b⟩ := p
      by_cases hs : a = sep
      · simp [mapsLoop, hs] at h
      · simp only [mapsLoop, hs, if_false] at h
        exact Nat.lt_trans (ih _ h) (Nat.lt_succ_self _)

theorem mapsLoop_sentinel_length (sep : String) :
    ∀ (ps : List (Except Error SPair)) (map : List SPair) {m : List SPair}
      {b : String} {rest : List (Except Error SPair)},
      mapsLoop sep map ps = .sentinel m b rest → rest.length < ps.length := by
  intro ps
  induction ps with
  | nil => intro map m b rest h; simp [mapsLoop] at h
  | cons x xs ih =>
    intro map m b rest h
    cases x with
    | error e2 => simp [mapsLoop] at h
    | ok p =>
      obtain ⟨a, b2⟩ := p
      by_cases hs : a = sep
      · simp [mapsLoop, hs] at h
        simp [h.2.2.symm]
      · simp only [mapsLoop, hs, if_false] at h
        exact Nat.lt_trans (ih _ h) (Nat.lt_succ_self _)

theorem mapsLoop_sentinel_acc (sep : String) :
    ∀ (ps : List (Except Error SPair)) (map : List SPair) {m : List SPair}
      {b : String} {rest : List (Except Error SPair)},
      mapsLoop sep map ps = .sentinel m b rest → ∃ t, m = map ++ t := by
  intro ps
  induction ps with
  | nil => intro map m b rest h; simp [mapsLoop] at h
  | cons x xs ih =>
    intro map m b rest h
    cases x with
    | error e2 => simp [mapsLoop] at h
    | ok p =>
      obtain ⟨a, b2⟩ := p
      by_cases hs : a = sep
      · simp [mapsLoop, hs] at h
        exact ⟨[], by simp [h.1]⟩
      · simp only [mapsLoop, hs, if_false] at h
        obtain ⟨t, ht⟩ := ih _ h
        exact ⟨(a, b2) :: t, by simp [ht]⟩

theorem mapsLoop_eos_acc (sep : String) :
    ∀ (ps : List (Except Error SPair)) (map : List SPair) {m : List SPair},
      mapsLoop sep map ps = .eos m → ∃ t, m = map ++ t := by
  intro ps
  induction ps with
  | nil =>
    intro map m h
    simp [mapsLoop] at h
    exact ⟨[], by simp [h]⟩
  | cons x xs ih =>
    intro map m h
    cases x with
    | error e2 => simp [mapsLoop] at h
    | ok p =>
      obtain ⟨a, b2⟩ := p
      by_cases hs : a = sep
      · simp [mapsLoop, hs] at h
      · simp only [mapsLoop, hs, if_false] at h
        obtain ⟨t, ht⟩ := ih _ h
        exact ⟨(a, b2) :: t, by simp [ht]⟩

theorem multiLoop_err_length (seps : List String) :
    ∀ (ps : List (Except Error SPair)) (map : List SPair) {e : Error}
      {rest : List (Except Error SPair)},
      multiLoop seps map ps = .err e rest → rest.length < ps.length := by
  intro ps
  induction ps with
  | nil => intro map e rest h; simp [multiLoop] at h
  | cons x xs ih =>
    intro map e rest h
    cases x with
    | error e2 =>
      simp [multiLoop] at h
      simp [h.2.symm]
    | ok p =>
      obtain ⟨a, b⟩ := p
      by_cases hs : a ∈ seps
      · simp [multiLoop, hs] at h
      · simp only [multiLoop, hs, if_false] at h
        exact Nat.lt_trans (ih _ h) (Nat.lt_succ_self _)

theorem multiLoop_sentinel_length (seps : List String) :
    ∀ (ps : List (Except Error SPair)) (map : List SPair) {m : List SPair}
      {a b : String} {rest : List (Except Error SPair)},
      multiLoop seps map ps = .sentinel m a b rest → rest.length < ps.length := by
  intro ps
  induction ps with
  | nil => intro map m a b rest h; simp [multiLoop] at h
  | cons x xs ih =>
    intro map m a b rest h
    cases x with
    | error e2 => simp [multiLoop] at h
    | ok p =>
      obtain ⟨a2, b2⟩ := p
      by_cases hs : a2 ∈ seps
      · simp [multiLoop, hs] at h
        simp [h.2.2.2.symm]
      · simp only [multiLoop, hs, if_false] at h
        exact Nat.lt_trans (ih _ h) (Nat.lt_succ_self _)

theorem multiLoop_sentinel_acc (seps : List String) :
    ∀ (ps : List (Except Error SPair)) (map : List SPair) {m : List SPair}
      {a b : String} {rest : List (Except Error SPair)},
      multiLoop seps map ps = .sentinel m a b rest → ∃ t, m = map ++ t := by
  intro ps
  induction ps with
  | nil => intro map m a b rest h; simp [multiLoop] at h
  | cons x xs ih =>
    intro map m a b rest h
    cases x with
    | error e2 => simp [multiLoop] at h
    | ok p =>
      obtain ⟨a2, b2⟩ := p
      by_cases hs : a2 ∈ seps
      · simp [multiLoop, hs] at h
        exact ⟨[], by simp [h.1]⟩
      · simp only [multiLoop, hs, if_false] at h
        obtain ⟨t, ht⟩ := ih _ h
        exact ⟨(a2, b2) :: t, by simp [ht]⟩

theorem Maps.next_eq_nextPlain (st : Maps) (hf : st.first = false) :
    Maps.next st = Maps.nextPlain st := by
  unfold Maps.next Maps.nextPlain
  rw [hf]
  simp

theorem MultiSepMaps.multi_next_eq_nextPlain (st : MultiSepMaps) (hf : st.first = false) :
    MultiSepMaps.next st = MultiSepMaps.nextPlain st := by
  unfold MultiSepMaps.next MultiSepMaps.nextPlain
  rw [hf]
  simp

theorem multiLoop_eos_acc (seps : List String) :
    ∀ (ps : List (Except Error SPair)) (map : List SPair) {m : List SPair},
      multiLoop seps map ps = .eos m → ∃ t, m = map ++ t := by
  intro ps
  induction ps with
  | nil =>
    intro map m h
    simp [multiLoop] at h
    exact ⟨[], by simp [h]⟩
  | cons x xs ih =>
    intro map m h
    cases x with
    | error e2 => simp [multiLoop] at h
    | ok p =>
      obtain ⟨a2, b2⟩ := p
      by_cases hs : a2 ∈ seps
      · simp [multiLoop, hs] at h
      · simp only [multiLoop, hs, if_false] at h
        obtain ⟨t, ht⟩ := ih _ h
        exact ⟨(a2, b2) :: t, by simp [ht]⟩

theorem Maps.nextPlain_some_measure (st : Maps) (r : Except Error (List SPair)) (st2 : Maps)
    (h : Maps.nextPlain st = (some r, st2)) : Maps.measure st2 < Maps.measure st := by
  unfold Maps.nextPlain at h
  cases hd : st.done with
  | true => simp [hd] at h
  | false =>
    simp only [hd, Bool.false_eq_true, if_false] at h
    split at h
    · rename_i e rest heq
      injection h with h1 h2
      subst h2
      have hlen := mapsLoop_err_length st.sep st.pairs (pending st.sep st.value) heq
      simp [Maps.measure, hd] <;> omega
    · rename_i map heq
      by_cases me : map.isEmpty = true
      · simp [me] at h
      · rw [if_neg me] at h
        injection h with h1 h2
        subst h2
        simp [Maps.measure, hd] <;> omega
    · rename_i map b rest heq
      by_cases me : map.isEmpty = true
      · simp [me] at h
      · rw [if_neg me] at h
        injection h with h1 h2
        subst h2
        have hlen := mapsLoop_sentinel_length st.sep st.pairs (pending st.sep st.value) heq
        simp [Maps.measure, hd] <;> omega

theorem Maps.next_some_measure (st : Maps) (r : Except Error (List SPair)) (st2 : Maps)
    (h : Maps.next st = (some r, st2)) : Maps.measure st2 < Maps.measure st := by
  unfold Maps.next at h
  cases hd : st.done with
  | true => simp [hd] at h
  | false =>
    simp only [hd, Bool.false_eq_true, if_false] at h
    split at h
    · rename_i e rest heq
      injection h with h1 h2
      subst h2
      have hlen := mapsLoop_err_length st.sep st.pairs (pending st.sep st.value) heq
      simp [Maps.measure, hd] <;> omega
    · rename_i map heq
      by_cases me : map.isEmpty = true
      · simp [me] at h
      · rw [if_neg me] at h
        injection h with h1 h2
        subst h2
        simp [Maps.measure, hd] <;> omega
    · rename_i map b rest heq
      have hlen := mapsLoop_sentinel_length st.sep st.pairs (pending st.sep st.value) heq
      cases hf : st.first with
      | true =>
        rw [if_pos hf] at h
        have h3 := Maps.nextPlain_some_measure _ _ _ h
        have h5 : Maps.measure ⟨rest, st.sep, some b, false, false⟩ = rest.length + 1 := by
          simp [Maps.measure]
        have h6 : Maps.measure st = st.pairs.length + 1 := by simp [Maps.measure, hd]
        omega
      | false =>
        have hf2 : ¬(st.first = true) := by simp [hf]
        rw [if_neg hf2] at h
        by_cases me : map.isEmpty = true
        · simp [me] at h
        · rw [if_neg me] at h
          injection h with h1 h2
          subst h2
          simp [Maps.measure, hd] <;> omega

theorem MultiSepMaps.multi_nextPlain_some_measure (st : MultiSepMaps)
    (r : Except Error (List SPair)) (st2 : MultiSepMaps)
    (h : MultiSepMaps.nextPlain st = (some r, st2)) :
    MultiSepMaps.measure st2 < MultiSepMaps.measure st := by
  unfold MultiSepMaps.nextPlain at h
  cases hd : st.done with
  | true => simp [hd] at h
  | false =>
    simp only [hd, Bool.false_eq_true, if_false] at h
    split at h
    · rename_i e rest heq
      injection h with h1 h2
      subst h2
      have hlen := multiLoop_err_length st.seps st.pairs (pendingMulti st.value st.last_sep) heq
      simp [MultiSepMaps.measure, hd] <;> omega
    · rename_i map heq
      by_cases me : map.isEmpty = true
      · simp [me] at h
      · rw [if_neg me] at h
        injection h with h1 h2
        subst h2
        simp [MultiSepMaps.measure, hd] <;> omega
    · rename_i map a b rest heq
      by_cases me : map.isEmpty = true
      · simp [me] at h
      · rw [if_neg me] at h
        injection h with h1 h2
        subst h2
        have hlen := multiLoop_sentinel_length st.seps st.pairs (pendingMulti st.value st.last_sep) heq
        simp [MultiSepMaps.measure, hd] <;> omega

theorem MultiSepMaps.multi_next_some_measure (st : MultiSepMaps)
    (r : Except Error (List SPair)) (st2 : MultiSepMaps)
    (h : MultiSepMaps.next st = (some r, st2)) :
    MultiSepMaps.measure st2 < MultiSepMaps.measure st := by
  unfold MultiSepMaps.next at h
  cases hd : st.done with
  | true => simp [hd] at h
  | false =>
    simp only [hd, Bool.false_eq_true, if_false] at h
    split at h
    · rename_i e rest heq
      injection h with h1 h2
      subst h2
      have hlen := multiLoop_err_length st.seps st.pairs (pendingMulti st.value st.last_sep) heq
      simp [MultiSepMaps.measure, hd] <;> omega
    · rename_i map heq
      by_cases me : map.isEmpty = true
      · simp [me] at h
      · rw [if_neg me] at h
        injection h with h1 h2
        subst h2
        simp [MultiSepMaps.measure, hd] <;> omega
    · rename_i map a b rest heq
      have hlen := multiLoop_sentinel_length st.seps st.pairs (pendingMulti st.value st.last_sep) heq
      cases hf : st.first with
      | true =>
        rw [if_pos hf] at h
        have h3 := MultiSepMaps.multi_nextPlain_some_measure _ _ _ h
        have h5 : MultiSepMaps.measure ⟨rest, st.seps, some a, some b, false, false⟩
            = rest.length + 1 := by simp [MultiSepMaps.measure]
        have h6 : MultiSepMaps.measure st = st.pairs.length + 1 := by
          simp [MultiSepMaps.measure, hd]
        omega
      | false =>
        have hf2 : ¬(st.first = true) := by simp [hf]
        rw [if_neg hf2] at h
        by_cases me : map.isEmpty = true
        · simp [me] at h
        · rw [if_neg me] at h
          injection h with h1 h2
          subst h2
          simp [MultiSepMaps.measure, hd] <;> omega

/-- Drive the single-sentinel grouping iterator the way its consumers do
(`collect` over `Result`s, src/proto.rs:176-179): keep calling `next`,
collecting the yielded groups, until it yields `None` (clean end) or a
terminal `Some(Err(e))`. -/
def Maps.run (st : Maps) : List (List SPair) × Option Error :=
  match h : Maps.next st with
  | (none, _) => ([], none)
  | (some (.error e), _) => ([], some e)
  | (some (.ok m), st2) => (m :: (Maps.run st2).1, (Maps.run st2).2)
termination_by Maps.measure st
decreasing_by all_goals exact Maps.next_some_measure st _ st2 h

/-- Drive the multi-sentinel grouping iterator as its consumers do
(src/proto.rs:181-184). -/
def MultiSepMaps.run (st : MultiSepMaps) : List (List SPair) × Option Error :=
  match h : MultiSepMaps.next st with
  | (none, _) => ([], none)
  | (some (.error e), _) => ([], some e)
  | (some (.ok m), st2) => (m :: (MultiSepMaps.run st2).1, (MultiSepMaps.run st2).2)
termination_by MultiSepMaps.measure st
decreasing_by all_goals exact MultiSepMaps.multi_next_some_measure st _ st2 h

theorem Maps.run_none {st st2 : Maps} (h : Maps.next st = (none, st2)) :
    Maps.run st = ([], none) := by
  unfold Maps.run
  split <;> simp_all

theorem Maps.run_err {st st2 : Maps} {e : Error}
    (h : Maps.next st = (some (.error e), st2)) : Maps.run st = ([], some e) := by
  unfold Maps.run
  split <;> simp_all

theorem Maps.run_ok {st st2 : Maps} {m : List SPair}
    (h : Maps.next st = (some (.ok m), st2)) :
    Maps.run st = (m :: (Maps.run st2).1, (Maps.run st2).2) := by
  rw [Maps.run.eq_def]
  split <;> simp_all

theorem MultiSepMaps.multi_run_none {st st2 : MultiSepMaps}
    (h : MultiSepMaps.next st = (none, st2)) : MultiSepMaps.run st = ([], none) := by
  unfold MultiSepMaps.run
  split <;> simp_all

theorem MultiSepMaps.multi_run_err {st st2 : MultiSepMaps} {e : Error}
    (h : MultiSepMaps.next st = (some (.error e), st2)) :
    MultiSepMaps.run st = ([], some e) := by
  unfold MultiSepMaps.run
  split <;> simp_all

theorem MultiSepMaps.multi_run_ok {st st2 : MultiSepMaps} {m : List SPair}
    (h : MultiSepMaps.next st = (some (.ok m), st2)) :
    MultiSepMaps.run st = (m :: (MultiSepMaps.run st2).1, (MultiSepMaps.run st2).2) := by
  rw [MultiSepMaps.run.eq_def]
  split <;> simp_all

/-- Lift a list of pure pairs into an error-free pair-item stream. -/
def oks (ps : List SPair) : List (Except Error SPair) :=
  ps.map Except.ok

/-- Pure reference for driving `Maps` from a mid-stream state: `cur` is the
group under construction (always seeded with a sentinel pair). A sentinel
closes the group, an error discards the group in progress and terminates,
end of stream flushes the group. -/
def pureRunMid (sep : String) (cur : List SPair) :
    List (Except Error SPair) → List (List SPair) × Option Error
  | [] => ([cur], none)
  | .error e :: _ => ([], some e)
  | .ok (a, b) :: rest =>
    if a = sep then
      (cur :: (pureRunMid sep [(sep, b)] rest).1, (pureRunMid sep [(sep, b)] rest).2)
    else pureRunMid sep (cur ++ [(a, b)]) rest

/-- Pure reference for driving `Maps` from its initial state: `junk` is the
leading run of non-sentinel pairs, which is kept only if the stream ends
without ever producing a sentinel. -/
def pureRunStart (sep : String) (junk : List SPair) :
    List (Except Error SPair) → List (List SPair) × Option Error
  | [] => (if junk.isEmpty then [] else [junk], none)
  | .error e :: _ => ([], some e)
  | .ok (a, b) :: rest =>
    if a = sep then pureRunMid sep [(sep, b)] rest
    else pureRunStart sep (junk ++ [(a, b)]) rest

theorem pureRunMid_loop (sep : String) :
    ∀ (xs : List (Except Error SPair)) (cur : List SPair),
      pureRunMid sep cur xs =
        match mapsLoop sep cur xs with
        | .err e _ => ([], some e)
        | .eos m => ([m], none)
        | .sentinel m b rest =>
          (m :: (pureRunMid sep [(sep, b)] rest).1, (pureRunMid sep [(sep, b)] rest).2) := by
  intro xs
  induction xs with
  | nil => intro cur; simp [pureRunMid, mapsLoop]
  | cons x rest ih =>
    intro cur
    cases x with
    | error e => simp [pureRunMid, mapsLoop]
    | ok p =>
      obtain ⟨a, b⟩ := p
      by_cases hs : a = sep
      · simp [pureRunMid, mapsLoop, hs]
      · simp only [pureRunMid, mapsLoop, hs, if_false]
        exact ih (cur ++ [(a, b)])

theorem pureRunStart_loop (sep : String) :
    ∀ (xs : List (Except Error SPair)) (junk : List SPair),
      pureRunStart sep junk xs =
        match mapsLoop sep junk xs with
        | .err e _ => ([], some e)
        | .eos m => (if m.isEmpty then [] else [m], none)
        | .sentinel _ b rest => pureRunMid sep [(sep, b)] rest := by
  intro xs
  induction xs with
  | nil => intro junk; simp [pureRunStart, mapsLoop]
  | cons x rest ih =>
    intro junk
    cases x with
    | error e => simp [pureRunStart, mapsLoop]
    | ok p =>
      obtain ⟨a, b⟩ := p
      by_cases hs : a = sep
      · simp [pureRunStart, mapsLoop, hs]
      · simp only [pureRunStart, mapsLoop, hs, if_false]
        exact ih (junk ++ [(a, b)])

/-- Computes `Maps.next` on a mid-stream state (pending value, `first` down),
expressed through the loop outcome. -/
theorem Maps.next_mid (sep : String) (xs : List (Except Error SPair)) (b : String) :
    Maps.next ⟨xs, sep, some b, false, false⟩ =
      match mapsLoop sep [(sep, b)] xs with
      | .err e rest => (some (.error e), ⟨rest, sep, none, false, false⟩)
      | .eos m => (some (.ok m), ⟨[], sep, none, true, false⟩)
      | .sentinel m b2 rest => (some (.ok m), ⟨rest, sep, some b2, false, false⟩) := by
  unfold Maps.next
  cases hl : mapsLoop sep [(sep, b)] xs with
  | err e rest => simp [pending, hl]
  | eos m =>
    obtain ⟨t, ht⟩ := mapsLoop_eos_acc sep xs [(sep, b)] hl
    subst ht
    simp [pending, hl]
  | sentinel m b2 rest =>
    obtain ⟨t, ht⟩ := mapsLoop_sentinel_acc sep xs [(sep, b)] hl
    subst ht
    simp [pending, hl]

/-- Computes `Maps.next` on the initial state of `Pairs::split`, expressed through
the loop outcome; the first sentinel discards the leading map and re-enters
through `Maps.nextPlain`. -/
theorem Maps.next_start (sep : String) (xs : List (Except Error SPair)) :
    Maps.next ⟨xs, sep, none, false, true⟩ =
      match mapsLoop sep [] xs with
      | .err e rest => (some (.error e), ⟨rest, sep, none, false, true⟩)
      | .eos m => (if m.isEmpty then none else some (.ok m), ⟨[], sep, none, true, true⟩)
      | .sentinel _ b rest => Maps.nextPlain ⟨rest, sep, some b, false, false⟩ := by
  unfold Maps.next
  cases hl : mapsLoop sep [] xs with
  | err e rest => simp [pending, hl]
  | eos m => simp [pending, hl]
  | sentinel m b2 rest => simp [pending, hl]

/-- Two states on which `next` agrees have the same run. -/
theorem Maps.run_congr {st st2 : Maps} (h : Maps.next st = Maps.next st2) :
    Maps.run st = Maps.run st2 := by
  rw [Maps.run.eq_def]
  rw [Maps.run.eq_def]
  rw [h]

/-- A finished (`done`) state yields `None`. -/
theorem Maps.next_done {st : Maps} (h : st.done = true) : Maps.next st = (none, st) := by
  unfold Maps.next
  simp [h]

/-- The run of `Maps` from a mid-stream state is computed by the pure
reference `pureRunMid`. -/
theorem Maps.run_mid (sep : String) :
    ∀ (n : Nat) (xs : List (Except Error SPair)), xs.length ≤ n → ∀ (b : String),
      Maps.run ⟨xs, sep, some b, false, false⟩ = pureRunMid sep [(sep, b)] xs := by
  intro n
  induction n with
  | zero =>
    intro xs hlen b
    have hx : xs = [] := List.length_eq_zero.mp (Nat.le_zero.mp hlen)
    subst hx
    have h1 : Maps.next ⟨[], sep, some b, false, false⟩
        = (some (.ok [(sep, b)]), ⟨[], sep, none, true, false⟩) := by
      rw [Maps.next_mid]
      simp [mapsLoop]
    have h2 : Maps.next (⟨[], sep, none, true, false⟩ : Maps)
        = (none, ⟨[], sep, none, true, false⟩) := Maps.next_done rfl
    rw [Maps.run_ok h1, Maps.run_none h2]
    simp [pureRunMid]
  | succ n ih =>
    intro xs hlen b
    rw [pureRunMid_loop]
    cases hl : mapsLoop sep [(sep, b)] xs with
    | err e rest =>
      have h1 : Maps.next ⟨xs, sep, some b, false, false⟩
          = (some (.error e), ⟨rest, sep, none, false, false⟩) := by
        rw [Maps.next_mid, hl]
      rw [Maps.run_err h1]
    | eos m =>
      have h1 : Maps.next ⟨xs, sep, some b, false, false⟩
          = (some (.ok m), ⟨[], sep, none, true, false⟩) := by
        rw [Maps.next_mid, hl]
      have h2 : Maps.next (⟨[], sep, none, true, false⟩ : Maps)
          = (none, ⟨[], sep, none, true, false⟩) := Maps.next_done rfl
      rw [Maps.run_ok h1, Maps.run_none h2]
    | sentinel m b2 rest =>
      have h1 : Maps.next ⟨xs, sep, some b, false, false⟩
          = (some (.ok m), ⟨rest, sep, some b2, false, false⟩) := by
        rw [Maps.next_mid, hl]
      have hrest : rest.length ≤ n := by
        have := mapsLoop_sentinel_length sep xs [(sep, b)] hl
        omega
      rw [Maps.run_ok h1, ih rest hrest b2]

/-- The run of `Maps` from the state created by `Pairs::split` is computed
by the pure reference `pureRunStart`. -/
theorem Maps.run_start (sep : String) (xs : List (Except Error SPair)) :
    Maps.run (Pairs.split sep xs) = pureRunStart sep [] xs := by
  show Maps.run ⟨xs, sep, none, false, true⟩ = pureRunStart sep [] xs
  rw [pureRunStart_loop]
  cases hl : mapsLoop sep [] xs with
  | err e rest =>
    have h1 : Maps.next ⟨xs, sep, none, false, true⟩
        = (some (.error e), ⟨rest, sep, none, false, true⟩) := by
      rw [Maps.next_start, hl]
    rw [Maps.run_err h1]
  | eos m =>
    by_cases me : m.isEmpty = true
    · have h1 : Maps.next ⟨xs, sep, none, false, true⟩ = (none, ⟨[], sep, none, true, true⟩) := by
        rw [Maps.next_start, hl]
        simp [me]
      rw [Maps.run_none h1]
      simp [me]
    · have h1 : Maps.next ⟨xs, sep, none, false, true⟩
          = (some (.ok m), ⟨[], sep, none, true, true⟩) := by
        rw [Maps.next_start, hl]
        simp [me]
      have h2 : Maps.next (⟨[], sep, none, true, true⟩ : Maps)
          = (none, ⟨[], sep, none, true, true⟩) := Maps.next_done rfl
      rw [Maps.run_ok h1, Maps.run_none h2]
      simp [me]
  | sentinel m b rest =>
    have h1 : Maps.next ⟨xs, sep, none, false, true⟩
        = Maps.next ⟨rest, sep, some b, false, false⟩ := by
      rw [Maps.next_start, hl, Maps.next_eq_nextPlain ⟨rest, sep, some b, false, false⟩ rfl]
    rw [Maps.run_congr h1, Maps.run_mid sep rest.length rest (Nat.le_refl _) b]

/-- Pure reference for driving `MultiSepMaps` from a mid-stream state; the
group seed carries the closing sentinel's own key. -/
def pureMultiRunMid (seps : List String) (cur : List SPair) :
    List (Except Error SPair) → List (List SPair) × Option Error
  | [] => ([cur], none)
  | .error e :: _ => ([], some e)
  | .ok (a, b) :: rest =>
    if a ∈ seps then
      (cur :: (pureMultiRunMid seps [(a, b)] rest).1, (pureMultiRunMid seps [(a, b)] rest).2)
    else pureMultiRunMid seps (cur ++ [(a, b)]) rest

/-- Pure reference for driving `MultiSepMaps` from its initial state. -/
def pureMultiRunStart (seps : List String) (junk : List SPair) :
    List (Except Error SPair) → List (List SPair) × Option Error
  | [] => (if junk.isEmpty then [] else [junk], none)
  | .error e :: _ => ([], some e)
  | .ok (a, b) :: rest =>
    if a ∈ seps then pureMultiRunMid seps [(a, b)] rest
    else pureMultiRunStart seps (junk ++ [(a, b)]) rest

theorem pureMultiRunMid_loop (seps : List String) :
    ∀ (xs : List (Except Error SPair)) (cur : List SPair),
      pureMultiRunMid seps cur xs =
        match multiLoop seps cur xs with
        | .err e _ => ([], some e)
        | .eos m => ([m], none)
        | .sentinel m a b rest =>
          (m :: (pureMultiRunMid seps [(a, b)] rest).1, (pureMultiRunMid seps [(a, b)] rest).2) := by
  intro xs
  induction xs with
  | nil => intro cur; simp [pureMultiRunMid, multiLoop]
  | cons x rest ih =>
    intro cur
    cases x with
    | error e => simp [pureMultiRunMid, multiLoop]
    | ok p =>
      obtain ⟨a, b⟩ := p
      by_cases hs : a ∈ seps
      · simp [pureMultiRunMid, multiLoop, hs]
      · simp only [pureMultiRunMid, multiLoop, hs, if_false]
        exact ih (cur ++ [(a, b)])

theorem pureMultiRunStart_loop (seps : List String) :
    ∀ (xs : List (Except Error SPair)) (junk : List SPair),
      pureMultiRunStart seps junk xs =
        match multiLoop seps junk xs with
        | .err e _ => ([], some e)
        | .eos m => (if m.isEmpty then [] else [m], none)
        | .sentinel _ a b rest => pureMultiRunMid seps [(a, b)] rest := by
  intro xs
  induction xs with
  | nil => intro junk; simp [pureMultiRunStart, multiLoop]
  | cons x rest ih =>
    intro junk
    cases x with
    | error e => simp [pureMultiRunStart, multiLoop]
    | ok p =>
      obtain ⟨a, b⟩ := p
      by_cases hs : a ∈ seps
      · simp [pureMultiRunStart, multiLoop, hs]
      · simp only [pureMultiRunStart, multiLoop, hs, if_false]
        exact ih (junk ++ [(a, b)])

/-- Computes `MultiSepMaps.next` on a mid-stream state, expressed through the loop
outcome: the new group is seeded with the remembered `(last_sep, value)`
pair. -/
theorem MultiSepMaps.multi_next_mid (seps : List String) (xs : List (Except Error SPair))
    (k v : String) :
    MultiSepMaps.next ⟨xs, seps, some k, some v, false, false⟩ =
      match multiLoop seps [(k, v)] xs with
      | .err e rest => (some (.error e), ⟨rest, seps, none, none, false, false⟩)
      | .eos m => (some (.ok m), ⟨[], seps, none, none, true, false⟩)
      | .sentinel m a2 b2 rest => (some (.ok m), ⟨rest, seps, some a2, some b2, false, false⟩) := by
  unfold MultiSepMaps.next
  cases hl : multiLoop seps [(k, v)] xs with
  | err e rest => simp [pendingMulti, hl]
  | eos m =>
    obtain ⟨t, ht⟩ := multiLoop_eos_acc seps xs [(k, v)] hl
    subst ht
    simp [pendingMulti, hl]
  | sentinel m a2 b2 rest =>
    obtain ⟨t, ht⟩ := multiLoop_sentinel_acc seps xs [(k, v)] hl
    subst ht
    simp [pendingMulti, hl]

/-- Computes `MultiSepMaps.next` on the initial state of `Pairs::split_multisep`. -/
theorem MultiSepMaps.multi_next_start (seps : List String) (xs : List (Except Error SPair)) :
    MultiSepMaps.next ⟨xs, seps, none, none, false, true⟩ =
      match multiLoop seps [] xs with
      | .err e rest => (some (.error e), ⟨rest, seps, none, none, false, true⟩)
      | .eos m => (if m.isEmpty then none else some (.ok m), ⟨[], seps, none, none, true, true⟩)
      | .sentinel _ a b rest => MultiSepMaps.nextPlain ⟨rest, seps, some a, some b, false, false⟩ := by
  unfold MultiSepMaps.next
  cases hl : multiLoop seps [] xs with
  | err e rest => simp [pendingMulti, hl]
  | eos m => simp [pendingMulti, hl]
  | sentinel m a b rest => simp [pendingMulti, hl]

/-- Two states on which `next` agrees have the same run. -/
theorem MultiSepMaps.multi_run_congr {st st2 : MultiSepMaps}
    (h : MultiSepMaps.next st = MultiSepMaps.next st2) :
    MultiSepMaps.run st = MultiSepMaps.run st2 := by
  rw [MultiSepMaps.run.eq_def]
  rw [MultiSepMaps.run.eq_def]
  rw [h]

/-- A finished (`done`) state yields `None`. -/
theorem MultiSepMaps.multi_next_done {st : MultiSepMaps} (h : st.done = true) :
    MultiSepMaps.next st = (none, st) := by
  unfold MultiSepMaps.next
  simp [h]

/-- The run of `MultiSepMaps` from a mid-stream state is computed by
`pureMultiRunMid`. -/
theorem MultiSepMaps.multi_run_mid (seps : List String) :
    ∀ (n : Nat) (xs : List (Except Error SPair)), xs.length ≤ n → ∀ (k v : String),
      MultiSepMaps.run ⟨xs, seps, some k, some v, false, false⟩
        = pureMultiRunMid seps [(k, v)] xs := by
  intro n
  induction n with
  | zero =>
    intro xs hlen k v
    have hx : xs = [] := List.length_eq_zero.mp (Nat.le_zero.mp hlen)
    subst hx
    have h1 : MultiSepMaps.next ⟨[], seps, some k, some v, false, false⟩
        = (some (.ok [(k, v)]), ⟨[], seps, none, none, true, false⟩) := by
      rw [MultiSepMaps.multi_next_mid]
      simp [multiLoop]
    have h2 : MultiSepMaps.next (⟨[], seps, none, none, true, false⟩ : MultiSepMaps)
        = (none, ⟨[], seps, none, none, true, false⟩) := MultiSepMaps.multi_next_done rfl
    rw [MultiSepMaps.multi_run_ok h1, MultiSepMaps.multi_run_none h2]
    simp [pureMultiRunMid]
  | succ n ih =>
    intro xs hlen k v
    rw [pureMultiRunMid_loop]
    cases hl : multiLoop seps [(k, v)] xs with
    | err e rest =>
      have h1 : MultiSepMaps.next ⟨xs, seps, some k, some v, false, false⟩
          = (some (.error e), ⟨rest, seps, none, none, false, false⟩) := by
        rw [MultiSepMaps.multi_next_mid, hl]
      rw [MultiSepMaps.multi_run_err h1]
    | eos m =>
      have h1 : MultiSepMaps.next ⟨xs, seps, some k, some v, false, false⟩
          = (some (.ok m), ⟨[], seps, none, none, true, false⟩) := by
        rw [MultiSepMaps.multi_next_mid, hl]
      have h2 : MultiSepMaps.next (⟨[], seps, none, none, true, false⟩ : MultiSepMaps)
          = (none, ⟨[], seps, none, none, true, false⟩) := MultiSepMaps.multi_next_done rfl
      rw [MultiSepMaps.multi_run_ok h1, MultiSepMaps.multi_run_none h2]
    | sentinel m a2 b2 rest =>
      have h1 : MultiSepMaps.next ⟨xs, seps, some k, some v, false, false⟩
          = (some (.ok m), ⟨rest, seps, some a2, some b2, false, false⟩) := by
        rw [MultiSepMaps.multi_next_mid, hl]
      have hrest : rest.length ≤ n := by
        have := multiLoop_sentinel_length seps xs [(k, v)] hl
        omega
      rw [MultiSepMaps.multi_run_ok h1, ih rest hrest a2 b2]

/-- The run of `MultiSepMaps` from the state created by
`Pairs::split_multisep` is computed by `pureMultiRunStart`. -/
theorem MultiSepMaps.multi_run_start (seps : List String) (xs : List (Except Error SPair)) :
    MultiSepMaps.run (Pairs.split_multisep seps xs) = pureMultiRunStart seps [] xs := by
  show MultiSepMaps.run ⟨xs, seps, none, none, false, true⟩ = pureMultiRunStart seps [] xs
  rw [pureMultiRunStart_loop]
  cases hl : multiLoop seps [] xs with
  | err e rest =>
    have h1 : MultiSepMaps.next ⟨xs, seps, none, none, false, true⟩
        = (some (.error e), ⟨rest, seps, none, none, false, true⟩) := by
      rw [MultiSepMaps.multi_next_start, hl]
    rw [MultiSepMaps.multi_run_err h1]
  | eos m =>
    by_cases me : m.isEmpty = true
    · have h1 : MultiSepMaps.next ⟨xs, seps, none, none, false, true⟩
          = (none, ⟨[], seps, none, none, true, true⟩) := by
        rw [MultiSepMaps.multi_next_start, hl]
        simp [me]
      rw [MultiSepMaps.multi_run_none h1]
      simp [me]
    · have h1 : MultiSepMaps.next ⟨xs, seps, none, none, false, true⟩
          = (some (.ok m), ⟨[], seps, none, none, true, true⟩) := by
        rw [MultiSepMaps.multi_next_start, hl]
        simp [me]
      have h2 : MultiSepMaps.next (⟨[], seps, none, none, true, true⟩ : MultiSepMaps)
          = (none, ⟨[], seps, none, none, true, true⟩) := MultiSepMaps.multi_next_done rfl
      rw [MultiSepMaps.multi_run_ok h1, MultiSepMaps.multi_run_none h2]
      simp [me]
  | sentinel m a b rest =>
    have h1 : MultiSepMaps.next ⟨xs, seps, none, none, false, true⟩
        = MultiSepMaps.next ⟨rest, seps, some a, some b, false, false⟩ := by
      rw [MultiSepMaps.multi_next_start, hl,
        MultiSepMaps.multi_next_eq_nextPlain ⟨rest, seps, some a, some b, false, false⟩ rfl]
    rw [MultiSepMaps.multi_run_congr h1,
      MultiSepMaps.multi_run_mid seps rest.length rest (Nat.le_refl _) a b]

/-- On an error-free stream, a mid-stream run never errors and the
concatenation of its groups is the current group followed by the remaining
pairs, in order. -/
theorem pureRunMid_oks (sep : String) :
    ∀ (ps cur : List SPair),
      (pureRunMid sep cur (ps.map Except.ok)).2 = none ∧
      ((pureRunMid sep cur (ps.map Except.ok)).1).flatten = cur ++ ps := by
  intro ps
  induction ps with
  | nil => intro cur; simp [pureRunMid]
  | cons p rest ih =>
    intro cur
    obtain ⟨a, b⟩ := p
    by_cases hs : a = sep
    · have ih2 := ih [(sep, b)]
      constructor
      · simp only [List.map_cons, pureRunMid, if_pos hs]
        exact ih2.1
      · simp only [List.map_cons, pureRunMid, if_pos hs]
        simp [ih2.2, hs]
    · have ih2 := ih (cur ++ [(a, b)])
      constructor
      · simp only [List.map_cons, pureRunMid, if_neg hs]
        exact ih2.1
      · simp only [List.map_cons, pureRunMid, if_neg hs]
        rw [ih2.2]
        simp

/-- On an error-free stream, the full run never errors; if some sentinel
occurs, the concatenation of the groups is exactly the input from the first
sentinel on (the leading pairs are discarded); if no sentinel occurs, it is
the accumulated leading group followed by the input. -/
theorem pureRunStart_oks (sep : String) :
    ∀ (ps junk : List SPair),
      (pureRunStart sep junk (ps.map Except.ok)).2 = none ∧
      ((∃ p ∈ ps, p.1 = sep) →
        ((pureRunStart sep junk (ps.map Except.ok)).1).flatten
          = ps.dropWhile (fun p => p.1 ≠ sep)) ∧
      ((∀ p ∈ ps, p.1 ≠ sep) →
        ((pureRunStart sep junk (ps.map Except.ok)).1).flatten = junk ++ ps) := by
  intro ps
  induction ps with
  | nil =>
    intro junk
    refine ⟨by simp [pureRunStart], by simp, ?_⟩
    intro hall
    by_cases hj : junk.isEmpty = true
    · simp [pureRunStart, hj, List.isEmpty_iff.mp hj]
    · simp [pureRunStart, hj]
  | cons p rest ih =>
    intro junk
    obtain ⟨a, b⟩ := p
    by_cases hs : a = sep
    · have hm := pureRunMid_oks sep rest [(sep, b)]
      refine ⟨?_, ?_, ?_⟩
      · simp only [List.map_cons, pureRunStart, if_pos hs]
        exact hm.1
      · intro hex
        simp only [List.map_cons, pureRunStart, if_pos hs]
        rw [hm.2]
        simp [List.dropWhile_cons, hs]
      · intro hall
        exact absurd hs (hall (a, b) (by simp))
    · have ih2 := ih (junk ++ [(a, b)])
      refine ⟨?_, ?_, ?_⟩
      · simp only [List.map_cons, pureRunStart, if_neg hs]
        exact ih2.1
      · intro hex
        obtain ⟨q, hq, hqe⟩ := hex
        rcases List.mem_cons.mp hq with hq1 | hq2
        · subst hq1; exact absurd hqe hs
        · simp only [List.map_cons, pureRunStart, if_neg hs]
          rw [ih2.2.1 ⟨q, hq2, hqe⟩]
          simp [List.dropWhile_cons, hs]
      · intro hall
        simp only [List.map_cons, pureRunStart, if_neg hs]
        rw [ih2.2.2 (fun q hq => hall q (List.mem_cons_of_mem _ hq))]
        simp

/-- A mid-stream run terminates at the first error of the stream with that
error, and its output does not depend on anything after the error. -/
theorem pureRunMid_err (sep : String) :
    ∀ (pre : List SPair) (cur : List SPair) (e : Error)
      (rest rest2 : List (Except Error SPair)),
      pureRunMid sep cur (pre.map Except.ok ++ .error e :: rest)
        = pureRunMid sep cur (pre.map Except.ok ++ .error e :: rest2) ∧
      (pureRunMid sep cur (pre.map Except.ok ++ .error e :: rest)).2 = some e := by
  intro pre
  induction pre with
  | nil => intro cur e rest rest2; simp [pureRunMid]
  | cons p ptl ih =>
    intro cur e rest rest2
    obtain ⟨a, b⟩ := p
    by_cases hs : a = sep
    · simp only [List.map_cons, List.cons_append, pureRunMid, if_pos hs, List.append_eq]
      have ih2 := ih [(sep, b)] e rest rest2
      rw [ih2.1]
      exact ⟨rfl, by rw [← ih2.1]; exact ih2.2⟩
    · simp only [List.map_cons, List.cons_append, pureRunMid, if_neg hs]
      exact ih (cur ++ [(a, b)]) e rest rest2

/-- The full run terminates at the first error of the stream with that
error, and its output does not depend on anything after the error. -/
theorem pureRunStart_err (sep : String) :
    ∀ (pre : List SPair) (junk : List SPair) (e : Error)
      (rest rest2 : List (Except Error SPair)),
      pureRunStart sep junk (pre.map Except.ok ++ .error e :: rest)
        = pureRunStart sep junk (pre.map Except.ok ++ .error e :: rest2) ∧
      (pureRunStart sep junk (pre.map Except.ok ++ .error e :: rest)).2 = some e := by
  intro pre
  induction pre with
  | nil => intro junk e rest rest2; simp [pureRunStart]
  | cons p ptl ih =>
    intro junk e rest rest2
    obtain ⟨a, b⟩ := p
    by_cases hs : a = sep
    · simp only [List.map_cons, List.cons_append, pureRunStart, if_pos hs]
      exact pureRunMid_err sep ptl [(sep, b)] e rest rest2
    · simp only [List.map_cons, List.cons_append, pureRunStart, if_neg hs]
      exact ih (junk ++ [(a, b)]) e rest rest2

/-- When a sentinel occurs in the stream, the accumulated leading group is
irrelevant to the run's output (it is discarded at the first sentinel). -/
theorem pureRunStart_junk_irrel (sep : String) :
    ∀ (ps : List SPair) (junk junk2 : List SPair), (∃ p ∈ ps, p.1 = sep) →
      pureRunStart sep junk (ps.map Except.ok) = pureRunStart sep junk2 (ps.map Except.ok) := by
  intro ps
  induction ps with
  | nil => intro junk junk2 hex; simp at hex
  | cons p rest ih =>
    intro junk junk2 hex
    obtain ⟨a, b⟩ := p
    by_cases hs : a = sep
    · simp only [List.map_cons, pureRunStart, if_pos hs]
    · obtain ⟨q, hq, hqe⟩ := hex
      rcases List.mem_cons.mp hq with hq1 | hq2
      · subst hq1; exact absurd hqe hs
      · simp only [List.map_cons, pureRunStart, if_neg hs]
        exact ih (junk ++ [(a, b)]) (junk2 ++ [(a, b)]) ⟨q, hq2, hqe⟩

/-- When a sentinel occurs in the stream, the run's output over the whole
stream equals its output over the suffix starting at the first sentinel. -/
theorem pureRunStart_dropWhile (sep : String) :
    ∀ (ps : List SPair), (∃ p ∈ ps, p.1 = sep) →
      pureRunStart sep [] (ps.map Except.ok)
        = pureRunStart sep [] ((ps.dropWhile (fun p => p.1 ≠ sep)).map Except.ok) := by
  intro ps
  induction ps with
  | nil => intro hex; simp at hex
  | cons p rest ih =>
    intro hex
    obtain ⟨a, b⟩ := p
    by_cases hs : a = sep
    · simp [List.dropWhile_cons, hs]
    · obtain ⟨q, hq, hqe⟩ := hex
      rcases List.mem_cons.mp hq with hq1 | hq2
      · subst hq1; exact absurd hqe hs
      · have h1 : pureRunStart sep [] (((a, b) :: rest).map Except.ok)
            = pureRunStart sep ([] ++ [(a, b)]) (rest.map Except.ok) := by
          simp only [List.map_cons, pureRunStart, if_neg hs]
        rw [h1, pureRunStart_junk_irrel sep rest ([] ++ [(a, b)]) [] ⟨q, hq2, hqe⟩,
          ih ⟨q, hq2, hqe⟩]
        simp [List.dropWhile_cons, hs]

/-- Multi-sentinel analogue of `pureRunMid_oks`. -/
theorem pureMultiRunMid_oks (seps : List String) :
    ∀ (ps cur : List SPair),
      (pureMultiRunMid seps cur (ps.map Except.ok)).2 = none ∧
      ((pureMultiRunMid seps cur (ps.map Except.ok)).1).flatten = cur ++ ps := by
  intro ps
  induction ps with
  | nil => intro cur; simp [pureMultiRunMid]
  | cons p rest ih =>
    intro cur
    obtain ⟨a, b⟩ := p
    by_cases hs : a ∈ seps
    · have ih2 := ih [(a, b)]
      constructor
      · simp only [List.map_cons, pureMultiRunMid, if_pos hs]
        exact ih2.1
      · simp only [List.map_cons, pureMultiRunMid, if_pos hs]
        simp [ih2.2]
    · have ih2 := ih (cur ++ [(a, b)])
      constructor
      · simp only [List.map_cons, pureMultiRunMid, if_neg hs]
        exact ih2.1
      · simp only [List.map_cons, pureMultiRunMid, if_neg hs]
        rw [ih2.2]
        simp

/-- Multi-sentinel analogue of `pureRunStart_oks`. -/
theorem pureMultiRunStart_oks (seps : List String) :
    ∀ (ps junk : List SPair),
      (pureMultiRunStart seps junk (ps.map Except.ok)).2 = none ∧
      ((∃ p ∈ ps, p.1 ∈ seps) →
        ((pureMultiRunStart seps junk (ps.map Except.ok)).1).flatten
          = ps.dropWhile (fun p => p.1 ∉ seps)) ∧
      ((∀ p ∈ ps, p.1 ∉ seps) →
        ((pureMultiRunStart seps junk (ps.map Except.ok)).1).flatten = junk ++ ps) := by
  intro ps
  induction ps with
  | nil =>
    intro junk
    refine ⟨by simp [pureMultiRunStart], by simp, ?_⟩
    intro hall
    by_cases hj : junk.isEmpty = true
    · simp [pureMultiRunStart, hj, List.isEmpty_iff.mp hj]
    · simp [pureMultiRunStart, hj]
  | cons p rest ih =>
    intro junk
    obtain ⟨a, b⟩ := p
    by_cases hs : a ∈ seps
    · have hm := pureMultiRunMid_oks seps rest [(a, b)]
      refine ⟨?_, ?_, ?_⟩
      · simp only [List.map_cons, pureMultiRunStart, if_pos hs]
        exact hm.1
      · intro hex
        simp only [List.map_cons, pureMultiRunStart, if_pos hs]
        rw [hm.2]
        simp [List.dropWhile_cons, hs]
      · intro hall
        exact absurd hs (hall (a, b) (by simp))
    · have ih2 := ih (junk ++ [(a, b)])
      refine ⟨?_, ?_, ?_⟩
      · simp only [List.map_cons, pureMultiRunStart, if_neg hs]
        exact ih2.1
      · intro hex
        obtain ⟨q, hq, hqe⟩ := hex
        rcases List.mem_cons.mp hq with hq1 | hq2
        · subst hq1; exact absurd hqe hs
        · simp only [List.map_cons, pureMultiRunStart, if_neg hs]
          rw [ih2.2.1 ⟨q, hq2, hqe⟩]
          simp [List.dropWhile_cons, hs]
      · intro hall
        simp only [List.map_cons, pureMultiRunStart, if_neg hs]
        rw [ih2.2.2 (fun q hq => hall q (List.mem_cons_of_mem _ hq))]
        simp

/-- Multi-sentinel analogue of `pureRunMid_err`. -/
theorem pureMultiRunMid_err (seps : List String) :
    ∀ (pre : List SPair) (cur : List SPair) (e : Error)
      (rest rest2 : List (Except Error SPair)),
      pureMultiRunMid seps cur (pre.map Except.ok ++ .error e :: rest)
        = pureMultiRunMid seps cur (pre.map Except.ok ++ .error e :: rest2) ∧
      (pureMultiRunMid seps cur (pre.map Except.ok ++ .error e :: rest)).2 = some e := by
  intro pre
  induction pre with
  | nil => intro cur e rest rest2; simp [pureMultiRunMid]
  | cons p ptl ih =>
    intro cur e rest rest2
    obtain ⟨a, b⟩ := p
    by_cases hs : a ∈ seps
    · simp only [List.map_cons, List.cons_append, pureMultiRunMid, if_pos hs, List.append_eq]
      have ih2 := ih [(a, b)] e rest rest2
      rw [ih2.1]
      exact ⟨rfl, by rw [← ih2.1]; exact ih2.2⟩
    · simp only [List.map_cons, List.cons_append, pureMultiRunMid, if_neg hs]
      exact ih (cur ++ [(a, b)]) e rest rest2

/-- Multi-sentinel analogue of `pureRunStart_err`. -/
theorem pureMultiRunStart_err (seps : List String) :
    ∀ (pre : List SPair) (junk : List SPair) (e : Error)
      (rest rest2 : List (Except Error SPair)),
      pureMultiRunStart seps junk (pre.map Except.ok ++ .error e :: rest)
        = pureMultiRunStart seps junk (pre.map Except.ok ++ .error e :: rest2) ∧
      (pureMultiRunStart seps junk (pre.map Except.ok ++ .error e :: rest)).2 = some e := by
  intro pre
  induction pre with
  | nil => intro junk e rest rest2; simp [pureMultiRunStart]
  | cons p ptl ih =>
    intro junk e rest rest2
    obtain ⟨a, b⟩ := p
    by_cases hs : a ∈ seps
    · simp only [List.map_cons, List.cons_append, pureMultiRunStart, if_pos hs]
      exact pureMultiRunMid_err seps ptl [(a, b)] e rest rest2
    · simp only [List.map_cons, List.cons_append, pureMultiRunStart, if_neg hs]
      exact ih (junk ++ [(a, b)]) e rest rest2

/-- Multi-sentinel analogue of `pureRunStart_junk_irrel`. -/
theorem pureMultiRunStart_junk_irrel (seps : List String) :
    ∀ (ps : List SPair) (junk junk2 : List SPair), (∃ p ∈ ps, p.1 ∈ seps) →
      pureMultiRunStart seps junk (ps.map Except.ok)
        = pureMultiRunStart seps junk2 (ps.map Except.ok) := by
  intro ps
  induction ps with
  | nil => intro junk junk2 hex; simp at hex
  | cons p rest ih =>
    intro junk junk2 hex
    obtain ⟨a, b⟩ := p
    by_cases hs : a ∈ seps
    · simp only [List.map_cons, pureMultiRunStart, if_pos hs]
    · obtain ⟨q, hq, hqe⟩ := hex
      rcases List.mem_cons.mp hq with hq1 | hq2
      · subst hq1; exact absurd hqe hs
      · simp only [List.map_cons, pureMultiRunStart, if_neg hs]
        exact ih (junk ++ [(a, b)]) (junk2 ++ [(a, b)]) ⟨q, hq2, hqe⟩

/-- Multi-sentinel analogue of `pureRunStart_dropWhile`. -/
theorem pureMultiRunStart_dropWhile (seps : List String) :
    ∀ (ps : List SPair), (∃ p ∈ ps, p.1 ∈ seps) →
      pureMultiRunStart seps [] (ps.map Except.ok)
        = pureMultiRunStart seps [] ((ps.dropWhile (fun p => p.1 ∉ seps)).map Except.ok) := by
  intro ps
  induction ps with
  | nil => intro hex; simp at hex
  | cons p rest ih =>
    intro hex
    obtain ⟨a, b⟩ := p
    by_cases hs : a ∈ seps
    · simp [List.dropWhile_cons, hs]
    · obtain ⟨q, hq, hqe⟩ := hex
      rcases List.mem_cons.mp hq with hq1 | hq2
      · subst hq1; exact absurd hqe hs
      · have h1 : pureMultiRunStart seps [] (((a, b) :: rest).map Except.ok)
            = pureMultiRunStart seps ([] ++ [(a, b)]) (rest.map Except.ok) := by
          simp only [List.map_cons, pureMultiRunStart, if_neg hs]
        rw [h1, pureMultiRunStart_junk_irrel seps rest ([] ++ [(a, b)]) [] ⟨q, hq2, hqe⟩,
          ih ⟨q, hq2, hqe⟩]
        simp [List.dropWhile_cons, hs]

/-- Rust `str::replace` for a one-character pattern (the two `replace`
calls of `Quoted` use the one-character patterns `\` and `"`): every
occurrence of `c` is replaced by `to`. -/
def replaceChar (c : Char) (repl : List Char) : List Char → List Char
  | [] => []
  | ch :: rest => (if ch = c then repl else [ch]) ++ replaceChar c repl rest

/-- The `Display` implementation of `Quoted` (src/proto.rs:343-354):
escape backslashes (`\` → `\\`), then double quotes (`"` → `\"`), and wrap
the result in double quotes. The input string stands for the rendering of
`self.0`; the `is_empty` check in the source has an empty body and no
effect. -/
def Quoted.render (s : String) : String :=
  let quoted := String.mk (replaceChar '"' ['\\', '"'] (replaceChar '\\' ['\\', '\\'] s.data))
  "\"" ++ quoted ++ "\""

/-- One-pass escape of a single character, as the spec describes the
quoting: backslash becomes two backslashes, a double quote becomes
backslash-quote, anything else is unchanged. -/
def escChar (ch : Char) : List Char :=
  if ch = '\\' then ['\\', '\\']
  else if ch = '"' then ['\\', '"']
  else [ch]

/-- Embeds `Subsystem` (src/idle.rs:42-72): the fourteen `idle` subsystems. -/
inductive Subsystem where
  | Database | Update | Playlist | Queue | Player | Mixer | Output
  | Options | Partition | Sticker | Subscription | Message | Neighbor | Mount
deriving DecidableEq, Repr

/-- Embeds `Subsystem::from_str` (src/idle.rs:74-96): decode a wire identifier;
unknown identifiers fail with `BadValue`. -/
def Subsystem.from_str (s : String) : Except ParseError Subsystem :=
  match s with
  | "database" => .ok .Database
  | "update" => .ok .Update
  | "stored_playlist" => .ok .Playlist
  | "playlist" => .ok .Queue
  | "player" => .ok .Player
  | "mixer" => .ok .Mixer
  | "output" => .ok .Output
  | "options" => .ok .Options
  | "partition" => .ok .Partition
  | "sticker" => .ok .Sticker
  | "subscription" => .ok .Subscription
  | "message" => .ok .Message
  | "neighbor" => .ok .Neighbor
  | "mount" => .ok .Mount
  | _ => .error (.BadValue s)

/-- Embeds `Subsystem::to_str` (src/idle.rs:98-118): the wire identifier of a
subsystem. -/
def Subsystem.to_str : Subsystem → String
  | .Database => "database"
  | .Update => "update"
  | .Playlist => "stored_playlist"
  | .Queue => "playlist"
  | .Player => "player"
  | .Mixer => "mixer"
  | .Output => "output"
  | .Options => "options"
  | .Partition => "partition"
  | .Sticker => "sticker"
  | .Subscription => "subscription"
  | .Message => "message"
  | .Neighbor => "neighbor"
  | .Mount => "mount"

/-- Embeds `Proto::drain` (src/proto.rs:198-207): read lines until one is exactly
`OK` or `list_OK`; every other line — `ACK` error lines included — is
skipped; a failed read propagates its error. `read_line` on an exhausted
source is modelled as an I/O error (a transport failure, per the spec's
error taxonomy; `client.rs` is not under `src/`). Returns the drain
outcome together with the remaining source. -/
def drain : List (Except IoError String) → Except Error Unit × List (Except IoError String)
  | [] => (.error (.Io "eof"), [])
  | .error e :: rest => (.error (.Io e), rest)
  | .ok l :: rest =>
    if l = "OK" ∨ l = "list_OK" then (.ok (), rest) else drain rest

/-- The connection state visible to this layer: the incoming line source
and the log of command lines written so far. -/
structure Conn where
  input : List (Except IoError String)
  sent : List String
deriving DecidableEq, Repr

/-- Modelled from the spec: `Client::run_command` (`client.rs` is not under
`src/`) writes the command onto the wire and can only fail with a
transport error; `writeOk` scripts whether the write succeeds. -/
def run_command (c : Conn) (cmd : String) (writeOk : Bool) : Except Error Conn :=
  if writeOk then .ok { c with sent := c.sent ++ [cmd] }
  else .error (.Io "write failed")

/-- Embeds `Drop for IdleGuard` (src/idle.rs:146-150):
`let _ = self.0.run_command("noidle", ()).map(|_| self.0.drain());` —
issue `noidle`; when issuing succeeded, drain the response; the combined
result, error or not, is discarded, so the function returns a plain
connection and nothing propagates to any caller. -/
def IdleGuard.drop (writeOk : Bool) (c : Conn) : Conn :=
  match run_command c "noidle" writeOk with
  | .ok c2 => { c2 with input := (drain c2.input).2 }
  | .error _ => c

/-- Rust `str::to_lowercase`, modelled character-wise (the protocol's
field names are ASCII, where `Char.toLower` agrees with Rust). -/
def toLowerStr (s : String) : String :=
  String.mk (s.data.map Char.toLower)

/-- A group under construction in `GroupedValues` (src/list.rs:5-8). -/
structure Group where
  key : String
  contents : List String
deriving DecidableEq, Repr

/-- The loop of `GroupedValues::from_pairs_with_sep` (src/list.rs:27-49):
a pair whose lowercased key equals `sep` flushes the current group and
opens a new one keyed by the pair's value; any other pair appends its
value to the current group, or is dropped when no group is open yet; an
underlying error propagates; end of stream flushes the current group. -/
def from_pairs_go (sep : String) (groups : List (String × List String))
    (curr : Option Group) :
    List (Except Error SPair) → Except Error (List (String × List String))
  | [] =>
    match curr with
    | some g => .ok (groups ++ [(g.key, g.contents)])
    | none => .ok groups
  | .ok (a, b) :: rest =>
    if toLowerStr a = sep then
      match curr with
      | some g => from_pairs_go sep (groups ++ [(g.key, g.contents)]) (some ⟨b, []⟩) rest
      | none => from_pairs_go sep groups (some ⟨b, []⟩) rest
    else
      match curr with
      | some g => from_pairs_go sep groups (some ⟨g.key, g.contents ++ [b]⟩) rest
      | none => from_pairs_go sep groups none rest
  | .error e :: _ => .error e

/-- Embeds `GroupedValues::from_pairs_with_sep` (src/list.rs:19-53); `sep` must be
lowercase. -/
def GroupedValues.from_pairs_with_sep (sep : String) (ps : List (Except Error SPair)) :
    Except Error (List (String × List String)) :=
  from_pairs_go sep [] none ps

theorem replaceChar_append (c : Char) (repl : List Char) :
    ∀ (l1 l2 : List Char),
      replaceChar c repl (l1 ++ l2) = replaceChar c repl l1 ++ replaceChar c repl l2 := by
  intro l1 l2
  induction l1 with
  | nil => simp [replaceChar]
  | cons ch rest ih => simp [replaceChar, ih]

/-- Escaping backslashes and then double quotes in sequence is the same as
a single pass escaping both: the second pass never touches the backslashes
introduced by the first. -/
theorem quoted_two_pass :
    ∀ (cs : List Char),
      replaceChar '"' ['\\', '"'] (replaceChar '\\' ['\\', '\\'] cs)
        = (cs.map escChar).flatten := by
  intro cs
  induction cs with
  | nil => simp [replaceChar]
  | cons ch rest ih =>
    by_cases h1 : ch = '\\'
    · subst h1
      simp [replaceChar, replaceChar_append, ih, escChar]
    · by_cases h2 : ch = '"'
      · subst h2
        simp [replaceChar, replaceChar_append, ih, escChar]
      · simp [replaceChar, replaceChar_append, ih, escChar, h1, h2]

/-- Pairs arriving while no group is open are dropped, so the grouped-list
parse only depends on the input from the first sentinel pair on. -/
theorem from_pairs_go_dropWhile (sep : String) :
    ∀ (ps : List SPair),
      from_pairs_go sep [] none (ps.map Except.ok)
        = from_pairs_go sep [] none
            ((ps.dropWhile (fun p => toLowerStr p.1 ≠ sep)).map Except.ok) := by
  intro ps
  induction ps with
  | nil => rfl
  | cons p rest ih =>
    obtain ⟨a, b⟩ := p
    by_cases hs : toLowerStr a = sep
    · simp [List.dropWhile_cons, hs]
    · have h1 : from_pairs_go sep [] none (((a, b) :: rest).map Except.ok)
          = from_pairs_go sep [] none (rest.map Except.ok) := by
        simp only [List.map_cons, from_pairs_go, if_neg hs]
      rw [h1, ih]
      simp [List.dropWhile_cons, hs]

/-- C1: for every line source, each call to `Pairs::next` pulls exactly one
line, decodes it, and yields `Some(Ok(key, value))` for a `Pair` reply,
`None` for the `Ok` terminal reply or an exhausted source,
`Some(Err(Server e))` for an `Ack` reply, and `Some(Err(e))` immediately
(the rest of the source untouched — no retry) for an I/O or decode
failure. -/
theorem pairs_next_yields (parse : String → Except ParseError Reply)
    (rest : List (Except IoError String)) (s a b : String)
    (e : ServerError) (pe : ParseError) (ioe : IoError) :
    Pairs.next parse [] = (none, []) ∧
    (parse s = .ok (.pair a b) →
      Pairs.next parse (.ok s :: rest) = (some (.ok (a, b)), rest)) ∧
    (parse s = .ok .ok → Pairs.next parse (.ok s :: rest) = (none, rest)) ∧
    (parse s = .ok (.ack e) →
      Pairs.next parse (.ok s :: rest) = (some (.error (.Server e)), rest)) ∧
    (parse s = .error pe →
      Pairs.next parse (.ok s :: rest) = (some (.error (.Parse pe)), rest)) ∧
    Pairs.next parse (.error ioe :: rest) = (some (.error (.Io ioe)), rest) := by
  refine ⟨rfl, ?_, ?_, ?_, ?_, rfl⟩ <;> intro h <;> simp [Pairs.next, h]

theorem pairs_next_yields_witness :
    Pairs.next parseReply [] = (none, []) ∧
    Pairs.next parseReply [.ok "file: x", .error "io"]
      = (some (.ok ("file", "x")), [.error "io"]) ∧
    Pairs.next parseReply [.ok "OK", .ok "left"] = (none, [.ok "left"]) ∧
    Pairs.next parseReply [.ok "ACK [5@0] {play} boom"]
      = (some (.error (.Server ⟨5, 0, "play", "boom"⟩)), []) ∧
    Pairs.next parseReply [.ok "garbage"] = (some (.error (.Parse .BadPair)), []) ∧
    Pairs.next parseReply [.error "broken pipe", .ok "OK"]
      = (some (.error (.Io "broken pipe")), [.ok "OK"]) := by
  refine ⟨(pairs_next_yields parseReply [] "" "" "" ⟨0, 0, "", ""⟩ .BadPair "").1,
    (pairs_next_yields parseReply [.error "io"] "file: x" "file" "x"
      ⟨0, 0, "", ""⟩ .BadPair "").2.1 (by decide),
    (pairs_next_yields parseReply [.ok "left"] "OK" "" ""
      ⟨0, 0, "", ""⟩ .BadPair "").2.2.1 (by decide),
    (pairs_next_yields parseReply [] "ACK [5@0] {play} boom" "" ""
      ⟨5, 0, "play", "boom"⟩ .BadPair "").2.2.2.1 (by decide),
    (pairs_next_yields parseReply [] "garbage" "" ""
      ⟨0, 0, "", ""⟩ .BadPair "").2.2.2.2.1 (by decide),
    (pairs_next_yields parseReply [.ok "OK"] "" "" ""
      ⟨0, 0, "", ""⟩ .BadPair "broken pipe").2.2.2.2.2⟩

/-- C2 counterexample: `Pairs` keeps no state, so after yielding
`Some(Err(server error))` for an `Ack` line it is NOT terminated — with a
further pair line available, the very next call yields `Some(Ok(pair))`,
not `None`. -/
theorem pairs_ack_not_terminal_cex :
    Pairs.next parseReply [.ok "ACK [5@0] {play} boom", .ok "file: x"]
      = (some (.error (.Server ⟨5, 0, "play", "boom"⟩)), [.ok "file: x"]) ∧
    (Pairs.next parseReply [.ok "file: x"]).1 = some (.ok ("file", "x")) ∧
    (Pairs.next parseReply [.ok "file: x"]).1 ≠ none := by
  refine ⟨by decide, by decide, by decide⟩

/-- C2 amended: once the pair stream has yielded `Some(Err(server error))`
for an `Ack` reply, the iterator is stateless: a further `next()` call
pulls the next line as usual, and yields `None` exactly when the remaining
source is exhausted or its next line decodes to the `Ok` terminal reply. -/
theorem pairs_next_after_ack (parse : String → Except ParseError Reply)
    (s : String) (e : ServerError) (rest : List (Except IoError String))
    (h : parse s = .ok (.ack e)) :
    Pairs.next parse (.ok s :: rest) = (some (.error (.Server e)), rest) ∧
    ((Pairs.next parse rest).1 = none ↔
      rest = [] ∨ ∃ s2 rest2, rest = .ok s2 :: rest2 ∧ parse s2 = .ok .ok) := by
  constructor
  · simp [Pairs.next, h]
  · constructor
    · intro hnone
      cases rest with
      | nil => exact Or.inl rfl
      | cons x rest2 =>
        cases x with
        | error ioe => simp [Pairs.next] at hnone
        | ok s2 =>
          cases hp : parse s2 with
          | ok r =>
            cases r with
            | pair a b => simp [Pairs.next, hp] at hnone
            | ok => exact Or.inr ⟨s2, rest2, rfl, hp⟩
            | ack e2 => simp [Pairs.next, hp] at hnone
          | error pe => simp [Pairs.next, hp] at hnone
    · intro hr
      rcases hr with hr | ⟨s2, rest2, hr, hp⟩
      · subst hr; rfl
      · subst hr; simp [Pairs.next, hp]

theorem pairs_next_after_ack_witness :
    Pairs.next parseReply [.ok "ACK [5@0] {play} boom", .ok "OK"]
      = (some (.error (.Server ⟨5, 0, "play", "boom"⟩)), [.ok "OK"]) ∧
    ((Pairs.next parseReply [.ok "OK"]).1 = none ↔
      ([.ok "OK"] : List (Except IoError String)) = [] ∨
      ∃ s2 rest2, ([.ok "OK"] : List (Except IoError String)) = .ok s2 :: rest2 ∧
        parseReply s2 = .ok .ok) :=
  pairs_next_after_ack parseReply "ACK [5@0] {play} boom" ⟨5, 0, "play", "boom"⟩
    [.ok "OK"] (by decide)

/-- C3: grouping the pair sequence
`[("file","a.mp3"), ("Time","10"), ("file","b.mp3"), ("Time","20")]` by the
sentinel `"file"` yields exactly two groups — one opened by
`("file","a.mp3")` with member `("Time","10")` and one opened by
`("file","b.mp3")` with member `("Time","20")` — with no error and no empty
leading group before the first sentinel. -/
theorem maps_group_by_file_example :
    Maps.run (Pairs.split "file"
      [.ok ("file", "a.mp3"), .ok ("Time", "10"), .ok ("file", "b.mp3"), .ok ("Time", "20")])
      = ([[("file", "a.mp3"), ("Time", "10")], [("file", "b.mp3"), ("Time", "20")]], none) := by
  have h1 : Maps.next (Pairs.split "file"
      [.ok ("file", "a.mp3"), .ok ("Time", "10"), .ok ("file", "b.mp3"), .ok ("Time", "20")])
      = (some (.ok [("file", "a.mp3"), ("Time", "10")]),
         ⟨[.ok ("Time", "20")], "file", some "b.mp3", false, false⟩) := by decide
  have h2 : Maps.next ⟨[.ok ("Time", "20")], "file", some "b.mp3", false, false⟩
      = (some (.ok [("file", "b.mp3"), ("Time", "20")]),
         ⟨[], "file", none, true, false⟩) := by decide
  have h3 : Maps.next (⟨[], "file", none, true, false⟩ : Maps)
      = (none, ⟨[], "file", none, true, false⟩) := by decide
  rw [Maps.run_ok h1, Maps.run_ok h2, Maps.run_none h3]

/-- C4: multi-sentinel grouping of
`[("directory","Music"), ("Last-Modified","2021"), ("file","a.mp3")]` by
`{"file","directory"}` yields exactly a `directory`-kind group keyed
`"Music"` with member `("Last-Modified","2021")` and a `file`-kind group
keyed `"a.mp3"` with no members; and in general, whenever the iterator
carries a pending sentinel `(last_sep = key, value)`, the next group it
emits starts with exactly that `(key, value)` pair — the closing
sentinel's own key is re-attached. -/
theorem multisep_group_example_and_reattach :
    (MultiSepMaps.run (Pairs.split_multisep ["file", "directory"]
      [.ok ("directory", "Music"), .ok ("Last-Modified", "2021"), .ok ("file", "a.mp3")])
      = ([[("directory", "Music"), ("Last-Modified", "2021")], [("file", "a.mp3")]], none)) ∧
    (∀ (st : MultiSepMaps) (k v : String) (m : List SPair) (st2 : MultiSepMaps),
      st.done = false → st.first = false → st.value = some v → st.last_sep = some k →
      MultiSepMaps.next st = (some (.ok m), st2) → m.head? = some (k, v)) := by
  constructor
  · have h1 : MultiSepMaps.next (Pairs.split_multisep ["file", "directory"]
        [.ok ("directory", "Music"), .ok ("Last-Modified", "2021"), .ok ("file", "a.mp3")])
        = (some (.ok [("directory", "Music"), ("Last-Modified", "2021")]),
           ⟨[], ["file", "directory"], some "file", some "a.mp3", false, false⟩) := by decide
    have h2 : MultiSepMaps.next
        ⟨[], ["file", "directory"], some "file", some "a.mp3", false, false⟩
        = (some (.ok [("file", "a.mp3")]),
           ⟨[], ["file", "directory"], none, none, true, false⟩) := by decide
    have h3 : MultiSepMaps.next
        (⟨[], ["file", "directory"], none, none, true, false⟩ : MultiSepMaps)
        = (none, ⟨[], ["file", "directory"], none, none, true, false⟩) := by decide
    rw [MultiSepMaps.multi_run_ok h1, MultiSepMaps.multi_run_ok h2, MultiSepMaps.multi_run_none h3]
  · intro st k v m st2 hd hf hv hk h
    obtain ⟨xs, seps, ls, vv, dd, ff⟩ := st
    simp only at hd hf hv hk
    subst hd
    subst hf
    subst hv
    subst hk
    rw [MultiSepMaps.multi_next_mid] at h
    split at h
    · rename_i e rest heq
      simp at h
    · rename_i m2 heq
      obtain ⟨t, ht⟩ := multiLoop_eos_acc seps xs [(k, v)] heq
      injection h with h1 h2
      injection h1 with h1
      injection h1 with h1
      subst h1
      simp [ht]
    · rename_i m2 a2 b2 rest heq
      obtain ⟨t, ht⟩ := multiLoop_sentinel_acc seps xs [(k, v)] heq
      injection h with h1 h2
      injection h1 with h1
      injection h1 with h1
      subst h1
      simp [ht]

theorem multisep_group_example_and_reattach_witness :
    ([("file", "a.mp3")] : List SPair).head? = some ("file", "a.mp3") :=
  multisep_group_example_and_reattach.2
    ⟨[], ["file", "directory"], some "file", some "a.mp3", false, false⟩
    "file" "a.mp3" [("file", "a.mp3")]
    ⟨[], ["file", "directory"], none, none, true, false⟩
    rfl rfl rfl rfl (by decide)

/-- C5: an error anywhere in the underlying pair stream is propagated by
both grouping iterators as a terminal error of the run: the run's error
outcome is exactly the first error of the stream, and the run's whole
output is independent of anything after the error point — no group after
the error is emitted. -/
theorem grouping_error_terminal :
    (∀ (sep : String) (pre : List SPair) (e : Error) (rest : List (Except Error SPair)),
      (Maps.run (Pairs.split sep (pre.map Except.ok ++ .error e :: rest))).2 = some e ∧
      Maps.run (Pairs.split sep (pre.map Except.ok ++ .error e :: rest))
        = Maps.run (Pairs.split sep (pre.map Except.ok ++ [.error e]))) ∧
    (∀ (seps : List String) (pre : List SPair) (e : Error)
      (rest : List (Except Error SPair)),
      (MultiSepMaps.run (Pairs.split_multisep seps (pre.map Except.ok ++ .error e :: rest))).2
        = some e ∧
      MultiSepMaps.run (Pairs.split_multisep seps (pre.map Except.ok ++ .error e :: rest))
        = MultiSepMaps.run (Pairs.split_multisep seps (pre.map Except.ok ++ [.error e]))) := by
  constructor
  · intro sep pre e rest
    rw [Maps.run_start, Maps.run_start]
    exact ⟨(pureRunStart_err sep pre [] e rest []).2, (pureRunStart_err sep pre [] e rest []).1⟩
  · intro seps pre e rest
    rw [MultiSepMaps.multi_run_start, MultiSepMaps.multi_run_start]
    exact ⟨(pureMultiRunStart_err seps pre [] e rest []).2,
      (pureMultiRunStart_err seps pre [] e rest []).1⟩

/-- C6: on an error-free pair stream the run of either grouping iterator
never errors, and the concatenation of the emitted groups reproduces the
input pairs verbatim and in order: from the first sentinel on when a
sentinel occurs (each group being a contiguous segment — no member is
reordered, dropped or duplicated within its group), and the whole input
when no sentinel occurs. -/
theorem grouping_preserves_member_order :
    (∀ (sep : String) (ps : List SPair),
      (Maps.run (Pairs.split sep (ps.map Except.ok))).2 = none ∧
      ((∃ p ∈ ps, p.1 = sep) →
        ((Maps.run (Pairs.split sep (ps.map Except.ok))).1).flatten
          = ps.dropWhile (fun p => p.1 ≠ sep)) ∧
      ((∀ p ∈ ps, p.1 ≠ sep) →
        ((Maps.run (Pairs.split sep (ps.map Except.ok))).1).flatten = ps)) ∧
    (∀ (seps : List String) (ps : List SPair),
      (MultiSepMaps.run (Pairs.split_multisep seps (ps.map Except.ok))).2 = none ∧
      ((∃ p ∈ ps, p.1 ∈ seps) →
        ((MultiSepMaps.run (Pairs.split_multisep seps (ps.map Except.ok))).1).flatten
          = ps.dropWhile (fun p => p.1 ∉ seps)) ∧
      ((∀ p ∈ ps, p.1 ∉ seps) →
        ((MultiSepMaps.run (Pairs.split_multisep seps (ps.map Except.ok))).1).flatten = ps)) := by
  constructor
  · intro sep ps
    rw [Maps.run_start]
    have h := pureRunStart_oks sep ps []
    exact ⟨h.1, h.2.1, fun hall => by rw [h.2.2 hall]; simp⟩
  · intro seps ps
    rw [MultiSepMaps.multi_run_start]
    have h := pureMultiRunStart_oks seps ps []
    exact ⟨h.1, h.2.1, fun hall => by rw [h.2.2 hall]; simp⟩

theorem grouping_preserves_member_order_witness :
    ((Maps.run (Pairs.split "file"
      ([("Time", "10"), ("file", "a"), ("Time", "20")].map Except.ok))).1).flatten
      = [("Time", "10"), ("file", "a"), ("Time", "20")].dropWhile (fun p => p.1 ≠ "file") ∧
    ((MultiSepMaps.run (Pairs.split_multisep ["file"]
      ([("x", "1")].map Except.ok))).1).flatten = [("x", "1")] := by
  constructor
  · exact (grouping_preserves_member_order.1 "file"
      [("Time", "10"), ("file", "a"), ("Time", "20")]).2.1 ⟨("file", "a"), by decide, rfl⟩
  · exact (grouping_preserves_member_order.2 ["file"] [("x", "1")]).2.2 (by decide)

/-- C7: the quoting wrapper renders a string by replacing every backslash
with two backslashes, then every double quote with backslash-quote, and
wrapping the result in double quotes — equivalently, by escaping each
character in one pass; in particular the 13-character text
`He said "hi"\` renders as `"He said \"hi\"\\"`. -/
theorem quoted_render_spec :
    (∀ (s : String),
      Quoted.render s = "\"" ++ String.mk ((s.data.map escChar).flatten) ++ "\"") ∧
    Quoted.render "He said \"hi\"\\" = "\"He said \\\"hi\\\"\\\\\"" := by
  constructor
  · intro s
    simp [Quoted.render, quoted_two_pass]
  · decide

/-- C8 counterexample: the drop-time drain does NOT stop at a terminal
error marker: with the `noidle` response `ACK ... / OK / tail` the drain
reads past the `ACK` line and consumes through the `OK` line (had the
`ACK` error marker terminated the drain, `OK` would still be unread). -/
theorem idle_drop_drain_cex :
    parseReply "ACK [5@0] {play} boom" = .ok (.ack ⟨5, 0, "play", "boom"⟩) ∧
    (IdleGuard.drop true
      ⟨[.ok "ACK [5@0] {play} boom", .ok "OK", .ok "tail"], []⟩).input = [.ok "tail"] ∧
    ¬((IdleGuard.drop true
      ⟨[.ok "ACK [5@0] {play} boom", .ok "OK", .ok "tail"], []⟩).input
        = [.ok "OK", .ok "tail"]) := by
  refine ⟨by decide, by decide, by decide⟩

/-- C8 amended: dropping an unresolved idle guard issues `noidle` and, when
issuing succeeded, drains the response by reading lines until a success
marker (`OK` or `list_OK`), discarding every other line — reported events
and `ACK` error lines alike, which do not terminate the drain; the drop
returns a plain connection, so no failure of this cleanup propagates to
any caller. -/
theorem idle_drop_cleanup :
    (∀ (c : Conn), (IdleGuard.drop true c).sent = c.sent ++ ["noidle"]) ∧
    (∀ (c : Conn), (IdleGuard.drop true c).input = (drain c.input).2) ∧
    (∀ (l : String) (rest : List (Except IoError String)),
      l ≠ "OK" → l ≠ "list_OK" → drain (.ok l :: rest) = drain rest) ∧
    (∀ (l : String) (rest : List (Except IoError String)),
      (l = "OK" ∨ l = "list_OK") → drain (.ok l :: rest) = (.ok (), rest)) ∧
    (∀ (pre : List String), (∀ x ∈ pre, x ≠ "OK" ∧ x ≠ "list_OK") →
      ∀ (rest : List (Except IoError String)),
        drain (pre.map Except.ok ++ .ok "OK" :: rest) = (.ok (), rest)) := by
  refine ⟨?_, ?_, ?_, ?_, ?_⟩
  · intro c
    simp [IdleGuard.drop, run_command]
  · intro c
    simp [IdleGuard.drop, run_command]
  · intro l rest h1 h2
    simp [drain, h1, h2]
  · intro l rest h
    rcases h with h | h <;> simp [drain, h]
  · intro pre
    induction pre with
    | nil =>
      intro hpre rest
      simp [drain]
    | cons x xs ih =>
      intro hpre rest
      have hx := hpre x (by simp)
      have hstep : drain (((x :: xs).map Except.ok) ++ .ok "OK" :: rest)
          = drain ((xs.map Except.ok) ++ .ok "OK" :: rest) := by
        simp [drain, hx.1, hx.2]
      rw [hstep]
      exact ih (fun y hy => hpre y (List.mem_cons_of_mem _ hy)) rest

theorem idle_drop_cleanup_witness :
    (IdleGuard.drop true (⟨[.ok "changed: player", .ok "OK", .ok "tail"], []⟩ : Conn)).sent
      = ([] : List String) ++ ["noidle"] ∧
    drain (["changed: player"].map Except.ok ++ .ok "OK" :: [.ok "tail"])
      = (.ok (), [.ok "tail"]) ∧
    drain (.ok "ACK [5@0] {play} boom" :: [.ok "OK"]) = drain [.ok "OK"] :=
  ⟨idle_drop_cleanup.1 ⟨[.ok "changed: player", .ok "OK", .ok "tail"], []⟩,
   idle_drop_cleanup.2.2.2.2 ["changed: player"] (by decide) [.ok "tail"],
   idle_drop_cleanup.2.2.1 "ACK [5@0] {play} boom" [.ok "OK"] (by decide) (by decide)⟩

/-- C9: decoding the wire identifier produced for any of the fourteen
subsystems yields the subsystem back:
`Subsystem::from_str(s.to_str()) = Ok(s)`. -/
theorem subsystem_roundtrip :
    ∀ (s : Subsystem), Subsystem.from_str s.to_str = .ok s := by
  intro s
  cases s <;> rfl

/-- C10: when the pair stream contains at least one sentinel pair, the
pairs preceding the first sentinel are silently discarded: the
single-sentinel grouping run and the grouped-list parse over the whole
input coincide with the ones over the suffix starting at the first
sentinel, so the leading pairs appear in no emitted group. -/
theorem leading_pairs_discarded :
    (∀ (sep : String) (ps : List SPair), (∃ p ∈ ps, p.1 = sep) →
      Maps.run (Pairs.split sep (ps.map Except.ok))
        = Maps.run (Pairs.split sep
            ((ps.dropWhile (fun p => p.1 ≠ sep)).map Except.ok))) ∧
    (∀ (sep : String) (ps : List SPair), (∃ p ∈ ps, toLowerStr p.1 = sep) →
      GroupedValues.from_pairs_with_sep sep (ps.map Except.ok)
        = GroupedValues.from_pairs_with_sep sep
            ((ps.dropWhile (fun p => toLowerStr p.1 ≠ sep)).map Except.ok)) := by
  constructor
  · intro sep ps hex
    rw [Maps.run_start, Maps.run_start, ← pureRunStart_dropWhile sep ps hex]
  · intro sep ps hex
    exact from_pairs_go_dropWhile sep ps

theorem leading_pairs_discarded_witness :
    Maps.run (Pairs.split "file" ([("Time", "10"), ("file", "a")].map Except.ok))
      = Maps.run (Pairs.split "file"
          (([("Time", "10"), ("file", "a")].dropWhile (fun p => p.1 ≠ "file")).map Except.ok)) ∧
    GroupedValues.from_pairs_with_sep "file" ([("Time", "10"), ("File", "a")].map Except.ok)
      = GroupedValues.from_pairs_with_sep "file"
          (([("Time", "10"), ("File", "a")].dropWhile
            (fun p => toLowerStr p.1 ≠ "file")).map Except.ok) :=
  ⟨leading_pairs_discarded.1 "file" [("Time", "10"), ("file", "a")]
      ⟨("file", "a"), by decide, rfl⟩,
   leading_pairs_discarded.2 "file" [("Time", "10"), ("File", "a")]
      ⟨("File", "a"), by decide, by decide⟩⟩

end Mpd
